import Mathlib

/-!
Verification of the L2 cachelib-backed embedding cache
(`fbgemm_gpu/src/split_embeddings_cache/cachelib_cache.cpp`, namespace
`l2_cache`).  The C++ file is a thin orchestration layer over an external
LRU allocator (cachelib): this development shallowly embeds that layer.
The external allocator appears only through the capabilities the spec
assumes of it (named capacity-bounded pools, insert-or-replace, a removal
callback fired synchronously on eviction or explicit removal); its
internal eviction choices enter the model as explicit decision
parameters.
-/

/-- Subset of `at::ScalarType` used by the cache. -/
inductive ScalarType where
  | kByte
  | kHalf
  | kFloat
  | kDouble
  | kLong
deriving DecidableEq, Repr

/-- `bytes_to_dtype` (cachelib_cache.cpp, lines 19-32): predicts the weight
element type from the per-element byte width; any width outside the fixed
table throws `std::runtime_error("Unsupported dtype")`, modelled as
`Except.error`. -/
def bytes_to_dtype (num_bytes : Nat) : Except String ScalarType :=
  match num_bytes with
  | 1 => .ok .kByte
  | 2 => .ok .kHalf
  | 4 => .ok .kFloat
  | 8 => .ok .kDouble
  | _ => .error "Unsupported dtype"

/-- Inverse width of a scalar type (`sizeof(scalar_t)` in the C++ copies). -/
def dtypeBytes : ScalarType → Nat
  | .kByte => 1
  | .kHalf => 2
  | .kFloat => 4
  | .kDouble => 8
  | .kLong => 8

/-- `CacheConfig` (declared in cachelib_cache.h, fields as used by the
.cpp): `num_shards`, `cache_size_bytes`, `max_D_` (row element count) and
`item_size_bytes` (bytes per stored row). -/
structure CacheConfig where
  num_shards : Nat
  cache_size_bytes : Nat
  max_D : Nat
  item_size_bytes : Nat
deriving DecidableEq, Repr

/-- Modelled from the spec: the constructor sizes each pool from
`cache_->getCacheMemoryStats().ramCacheSize`, a query on the external
allocator (out of scope per the spec).  The allocator was configured with
`setCacheSize(config.cache_size_bytes)` (line 72) and the spec treats the
reported size as the configured total capacity ("total capacity is the
configured cache size divided evenly across shards"). -/
def ramCacheSize (config : CacheConfig) : Nat :=
  config.cache_size_bytes

/-- Pool capacities created by the `CacheLibCache` constructor
(lines 38-42): one `addPool` per shard, each of size
`ramCacheSize / num_shards` (C++ integer division). -/
def poolCapacities (config : CacheConfig) : List Nat :=
  (List.range config.num_shards).map
    (fun _ => ramCacheSize config / config.num_shards)

/-- Result of constructing a `CacheLibCache`: the stored config and the
per-shard pool capacity slices.  The constructor performs no dtype
inference and cannot fail on an unsupported element width. -/
structure ConstructedCache where
  cache_config : CacheConfig
  pools : List Nat
deriving Repr

/-- The `CacheLibCache` constructor (lines 34-43). -/
def constructCache (config : CacheConfig) : ConstructedCache :=
  { cache_config := config, pools := poolCapacities config }

/-- Modelled from the spec: `kv_db_utils::hash_shard`
(kv_db_cpp_utils.h, not under src/) — a pure deterministic hash mapping a
key into `[0, num_shards)`. -/
def hash_shard (key : Int) (num_shards : Nat) : Nat :=
  key.natAbs % num_shards

/-- `CacheLibCache::get_shard_id` (lines 99-101). -/
def get_shard_id (config : CacheConfig) (key : Int) : Nat :=
  hash_shard key config.num_shards

/-- Functional view of the allocator index: the live entries, each a
64-bit key with its raw value bytes.  At most one live entry per key
(maintained by insert-or-replace). -/
structure CacheState where
  entries : List (Int × List Nat)
deriving DecidableEq, Repr

/-- The empty cache, as right after construction. -/
def emptyCache : CacheState := { entries := [] }

/-- `CacheLibCache::get` (lines 89-97): `cache_->find` on the encoded key;
`nullopt` on miss, otherwise a view of the stored bytes. -/
def get (st : CacheState) (key : Int) : Option (List Nat) :=
  (st.entries.find? (fun e => e.1 == key)).map (fun e => e.2)

/-- Remove a set of keys from the index (the external allocator reclaiming
victims during an allocation). -/
def removeKeys (entries : List (Int × List Nat)) (victims : List Int) :
    List (Int × List Nat) :=
  entries.filter (fun e => !(victims.contains e.1))

/-- Decision taken by the external allocator on
`cache_->allocate(pool, key, nbytes)`: either the allocation fails (after
the allocator possibly evicted some victims in a vain attempt to free
space) or it succeeds, having evicted the listed victims. -/
inductive AllocOutcome where
  | fail (evicted : List Int)
  | ok (evicted : List Int)
deriving DecidableEq, Repr

/-- `CacheLibCache::put` (lines 107-118): allocate `data.nbytes()` bytes
in the key's pool — no validation of the row's byte length against the
configured `item_size_bytes` or `max_D_` is performed.  On allocation
failure, log and return `false`.  On success, `memcpy` the caller's bytes
and `insertOrReplace`, which displaces any previous entry for the same
key.  The allocator's eviction choice is the `alloc` parameter. -/
def put (st : CacheState) (key : Int) (data : List Nat)
    (alloc : AllocOutcome) : Bool × CacheState :=
  match alloc with
  | .fail evicted => (false, { entries := removeKeys st.entries evicted })
  | .ok evicted =>
      let afterEvict := removeKeys st.entries evicted
      (true, { entries := (key, data) :: removeKeys afterEvict [key] })

/-- Number of live items the allocator reports for one pool
(`getPoolStats(pool_id).numItems()`): the entries routed to that shard. -/
def poolNumItems (config : CacheConfig) (st : CacheState) (shard : Nat) : Nat :=
  (st.entries.filter (fun e => get_shard_id config e.1 == shard)).length

/-- `total_num_items` of `get_all_items` (lines 121-124): the per-pool
item counts summed over `pool_ids_`. -/
def totalNumItems (config : CacheConfig) (st : CacheState) : Nat :=
  (List.range config.num_shards).foldl
    (fun acc shard => acc + poolNumItems config st shard) 0

/-- One `std::copy` of `count` bytes out of an item's memory
(`itr->getMemory()`): reading past the item's allocation is undefined
behaviour in the C++, modelled as an error. -/
def readRow (mem : List Nat) (count : Nat) : Except String (List Nat) :=
  if count ≤ mem.length then .ok (mem.take count)
  else .error "out of bounds read past item memory"

/-- The scan loop of `get_all_items` (lines 137-147): visits every live
entry, writing key `item_idx` and a copy of `count` bytes of row data into
output arrays of leading size `total`.  A write at `item_idx ≥ total`
overruns the output arrays (undefined behaviour), modelled as an error. -/
def scanLoop (count : Nat) (total : Nat) :
    List (Int × List Nat) → Nat → Except String (List Int × List (List Nat))
  | [], _ => .ok ([], [])
  | e :: rest, idx =>
      if total ≤ idx then .error "out of bounds write past output arrays"
      else
        match readRow e.2 count with
        | .error msg => .error msg
        | .ok row =>
            match scanLoop count total rest (idx + 1) with
            | .error msg => .error msg
            | .ok (ks, rs) => .ok (e.1 :: ks, row :: rs)

/-- The export step of `get_all_items` after the dtype is known: run the
scan loop with output arrays sized to the pre-computed `total`, then the
`CHECK_EQ(total_num_items, item_idx)` hard check (line 148) — a mismatch
is a fatal internal-consistency failure, never silently ignored. -/
def scanExport (count : Nat) (total : Nat)
    (entries : List (Int × List Nat)) :
    Except String (List Int × List (List Nat) × Nat) :=
  match scanLoop count total entries 0 with
  | .error msg => .error msg
  | .ok (ks, rs) =>
      if total = entries.length then .ok (ks, rs, total)
      else .error "CHECK_EQ(total_num_items, item_idx) failed"

/-- `CacheLibCache::get_all_items` (lines 120-156): sum per-pool counts,
infer the element dtype from `item_size_bytes / max_D_` (line 127 — this
is where an unsupported width throws, not at construction), then scan all
live items copying `max_D_` elements (`max_D_ * sizeof(scalar_t)` bytes)
per item, and return `(indices, weights, count)`. -/
def get_all_items (config : CacheConfig) (st : CacheState) :
    Except String (List Int × List (List Nat) × Nat) :=
  match bytes_to_dtype (config.item_size_bytes / config.max_D) with
  | .error msg => .error msg
  | .ok dt =>
      scanExport (config.max_D * dtypeBytes dt) (totalNumItems config st)
        st.entries

/-- `get_cache_usage` (lines 187-195): capacity is the configured total;
free bytes are summed over the pools (modelled abstractly as a per-pool
query on the external allocator). -/
def get_cache_usage (config : CacheConfig) (freeBytesOfPool : Nat → Nat) :
    Nat × Nat :=
  ((List.range config.num_shards).foldl
      (fun acc shard => acc + freeBytesOfPool shard) 0,
    config.cache_size_bytes)

/-- cachelib's `RemoveContext`: `kEviction` for a true capacity eviction,
`kNormal` for an explicit removal such as the displacement performed by
`insertOrReplace` on an existing key. -/
inductive RemoveContext where
  | kEviction
  | kNormal
deriving DecidableEq, Repr

/-- One firing of the allocator's removal callback
(`RemoveCbData`): the removed item's decoded key, its memory, and the
removal context. -/
structure RemoveEvent where
  key : Int
  row : List Nat
  context : RemoveContext
deriving DecidableEq, Repr

/-- The eviction-capture state held by `CacheLibCache`:
`evicted_indices_ptr_` and `evicted_weights_ptr_` (null until
`init_tensor_for_l2_eviction` attaches a buffer; the weights buffer
carries its row dimension `size(1)`), and the shared cursor
`eviction_row_id`. -/
structure EvictionState where
  evicted_indices : Option (List Int)
  evicted_weights : Option (List (List Nat) × Nat)
  eviction_row_id : Nat
deriving DecidableEq, Repr

/-- Overwrite slot `i` of a buffer (a single indexed store). -/
def setSlot {α : Type} : List α → Nat → α → List α
  | [], _, _ => []
  | _ :: xs, 0, v => v :: xs
  | x :: xs, n + 1, v => x :: setSlot xs n v

/-- The removal callback `eviction_cb` installed by the constructor
(lines 47-70).  The dispatch macro evaluates
`evicted_weights_ptr_->scalar_type()` before anything else, so a firing
while unarmed dereferences a null `shared_ptr` (undefined behaviour,
modelled as an error).  Only then is the context compared against
`RemoveContext::kEviction`; for an eviction the handler claims slot
`eviction_row_id` (post-increment), stores the decoded key in
`evicted_indices[row_id]` and copies `weight_dim` elements of the item's
memory into row `row_id` of `evicted_weights`.  A slot past the buffer
end, or a copy past the item's memory, is undefined behaviour. -/
def eviction_cb : EvictionState → RemoveEvent → Except String EvictionState
  | ⟨_, none, _⟩, _ => .error "null dereference of evicted_weights_ptr_"
  | ⟨none, some p, row_id⟩, ev =>
      if ev.context = RemoveContext.kEviction then
        .error "null dereference of evicted_indices_ptr_"
      else .ok ⟨none, some p, row_id⟩
  | ⟨some keys, some (rows, weight_dim), row_id⟩, ev =>
      if ev.context = RemoveContext.kEviction then
        if row_id < keys.length ∧ row_id < rows.length then
          if weight_dim ≤ ev.row.length then
            .ok { evicted_indices := some (setSlot keys row_id ev.key),
                  evicted_weights :=
                    some (setSlot rows row_id (ev.row.take weight_dim),
                      weight_dim),
                  eviction_row_id := row_id + 1 }
          else .error "out of bounds read past item memory"
        else .error "out of bounds write past capture buffers"
      else .ok ⟨some keys, some (rows, weight_dim), row_id⟩

/-- All removal callbacks fired during one batch of `put` calls, in
order. -/
def runCallbacks (st : EvictionState) :
    List RemoveEvent → Except String EvictionState
  | [] => .ok st
  | ev :: rest =>
      match eviction_cb st ev with
      | .error msg => .error msg
      | .ok st1 => runCallbacks st1 rest

/-- The eviction events of a batch, in firing order. -/
def evictionsOf (evs : List RemoveEvent) : List RemoveEvent :=
  evs.filter (fun ev => ev.context == RemoveContext.kEviction)

/-- `at::empty({n, d})`: a fresh 2-d tensor of the given shape with
unspecified contents, the junk supplied by the `junk` parameter. -/
def at_empty_2d (n d : Nat) (junk : Nat → Nat → Nat) : List (List Nat) :=
  (List.range n).map (fun i => (List.range d).map (junk i))

/-- `CacheLibCache::init_tensor_for_l2_eviction` (lines 158-171): attach a
fresh capture buffer of leading length `num_lookups`
(`count.item<long>()`): `evicted_indices` is `at::ones(num_lookups) * -1`
(every slot the sentinel −1) and `evicted_weights` is
`at::empty({num_lookups, weights.size(1)})` (uninitialized).  The cursor
is not touched here. -/
def init_tensor_for_l2_eviction (st : EvictionState) (num_lookups : Nat)
    (weight_dim : Nat) (junk : Nat → Nat → Nat) : EvictionState :=
  { evicted_indices :=
      some ((List.replicate num_lookups (1 : Int)).map (fun x => x * (-1))),
    evicted_weights := some (at_empty_2d num_lookups weight_dim junk, weight_dim),
    eviction_row_id := st.eviction_row_id }

/-- `CacheLibCache::reset_eviction_states` (lines 173-175): zero the
shared cursor. -/
def reset_eviction_states (st : EvictionState) : EvictionState :=
  { st with eviction_row_id := 0 }

/-- `get_evicted_indices_and_weights` (lines 177-185): the attached
buffers, or none when never armed. -/
def get_evicted_indices_and_weights (st : EvictionState) :
    Option (List Int × List (List Nat)) :=
  match st.evicted_indices with
  | none => none
  | some keys =>
      match st.evicted_weights with
      | none => none
      | some (rows, _) => some (keys, rows)

/-- The engine state before any arming: both capture pointers null,
cursor zero. -/
def unarmedState : EvictionState :=
  { evicted_indices := none, evicted_weights := none, eviction_row_id := 0 }

/-- Modelled from the spec: the declaration of `eviction_row_id` lives in
cachelib_cache.h (not under src/).  Spec section 5 requires the increment
to be an atomic fetch-and-add and section 9 instructs implementers to
"replace the unguarded increment with an atomic counter", so the source
increment `eviction_row_id++` (line 57) is a plain, non-atomic
read-modify-write.  State of two threads racing on the cursor: the shared
cursor, each thread's private register from its read, and the slot each
thread ends up claiming. -/
structure RaceState where
  cursor : Nat
  reg1 : Option Nat
  reg2 : Option Nat
  slot1 : Option Nat
  slot2 : Option Nat
deriving DecidableEq, Repr

/-- Initial race state: cursor 0, nothing read or claimed. -/
def raceInit : RaceState :=
  { cursor := 0, reg1 := none, reg2 := none, slot1 := none, slot2 := none }

/-- A plain (non-atomic) `eviction_row_id++` compiles to a separate load
and store; each thread contributes one load and one store, and the
scheduler interleaves them. -/
inductive PlainStep where
  | read1
  | write1
  | read2
  | write2
deriving DecidableEq, Repr

/-- Semantics of one interleaved step of the plain increment: a read
loads the cursor into the thread's register (that value is the slot the
thread claims); a write stores register + 1 back.  Reads and writes are
each performed at most once per thread. -/
def plainStep (s : RaceState) : PlainStep → RaceState
  | .read1 =>
      match s.reg1 with
      | some _ => s
      | none => { s with reg1 := some s.cursor, slot1 := some s.cursor }
  | .write1 =>
      match s.reg1, s.slot1 with
      | some v, some _ => { s with cursor := v + 1, reg1 := none }
      | _, _ => s
  | .read2 =>
      match s.reg2 with
      | some _ => s
      | none => { s with reg2 := some s.cursor, slot2 := some s.cursor }
  | .write2 =>
      match s.reg2, s.slot2 with
      | some v, some _ => { s with cursor := v + 1, reg2 := none }
      | _, _ => s

/-- Run a schedule of interleaved plain-increment steps. -/
def runPlain (steps : List PlainStep) : RaceState :=
  steps.foldl plainStep raceInit

/-- An atomic fetch-and-add executes as one indivisible step per
thread. -/
inductive AtomicStep where
  | fad1
  | fad2
deriving DecidableEq, Repr

/-- Semantics of an atomic fetch-and-add: claim the current cursor value
and bump the cursor in one indivisible step (once per thread). -/
def atomicStep (s : RaceState) : AtomicStep → RaceState
  | .fad1 =>
      match s.slot1 with
      | some _ => s
      | none => { s with slot1 := some s.cursor, cursor := s.cursor + 1 }
  | .fad2 =>
      match s.slot2 with
      | some _ => s
      | none => { s with slot2 := some s.cursor, cursor := s.cursor + 1 }

/-- Run a schedule of atomic fetch-and-add steps. -/
def runAtomic (steps : List AtomicStep) : RaceState :=
  steps.foldl atomicStep raceInit

theorem find_filter_eq {α : Type} (q p : α → Bool) (l : List α)
    (h : ∀ e ∈ l, q e = true → p e = true) :
    (l.filter p).find? q = l.find? q := by
  induction l with
  | nil => rfl
  | cons x xs ih =>
      have ih2 := ih (fun e he hq => h e (List.mem_cons_of_mem _ he) hq)
      by_cases hq : q x = true
      · have hp : p x = true := h x (List.mem_cons_self _ _) hq
        rw [List.filter_cons, if_pos hp, List.find?_cons_of_pos _ hq,
          List.find?_cons_of_pos _ hq]
      · by_cases hp : p x = true
        · rw [List.filter_cons, if_pos hp, List.find?_cons_of_neg _ hq,
            List.find?_cons_of_neg _ hq, ih2]
        · rw [List.filter_cons, if_neg hp, List.find?_cons_of_neg _ hq, ih2]

theorem get_def (st : CacheState) (key : Int) :
    get st key = (st.entries.find? (fun e => e.1 == key)).map (fun e => e.2) :=
  rfl

theorem put_ok_get (st : CacheState) (key : Int) (data : List Nat)
    (victims : List Int) :
    get (put st key data (.ok victims)).2 key = some data := by
  have hq : (((key, data) : Int × List Nat).1 == key) = true := by simp
  rw [get_def]
  show (((key, data) ::
      removeKeys (removeKeys st.entries victims) [key]).find?
        (fun e => e.1 == key)).map (fun e => e.2) = some data
  rw [@List.find?_cons_of_pos (Int × List Nat) (fun e => e.1 == key)
    (key, data) (removeKeys (removeKeys st.entries victims) [key]) hq]
  rfl

/-- C4: at construction each of the `num_shards` pools is created with
capacity exactly `cache_size_bytes / num_shards` (integer division of the
configured total cache size), the pools partition the configured capacity
evenly, and the residual `cache_size_bytes % num_shards` bytes are lost. -/
theorem pools_partition_capacity_evenly (config : CacheConfig) :
    (constructCache config).pools.length = config.num_shards ∧
    (∀ c ∈ (constructCache config).pools,
      c = config.cache_size_bytes / config.num_shards) ∧
    (constructCache config).pools.sum +
        config.cache_size_bytes % config.num_shards =
      config.cache_size_bytes := by
  refine ⟨?_, ?_, ?_⟩
  · simp [constructCache, poolCapacities]
  · intro c hc
    simp only [constructCache, poolCapacities, ramCacheSize, List.mem_map] at hc
    obtain ⟨_, _, hcv⟩ := hc
    exact hcv.symm
  · have hmap : (List.range config.num_shards).map
        (fun _ => ramCacheSize config / config.num_shards) =
        List.replicate config.num_shards
          (config.cache_size_bytes / config.num_shards) := by
      have hc := List.map_const (List.range config.num_shards)
        (config.cache_size_bytes / config.num_shards)
      simp only [Function.const, List.length_range] at hc
      rw [show (fun _ : Nat => ramCacheSize config / config.num_shards) =
        (fun _ : Nat => config.cache_size_bytes / config.num_shards) from rfl]
      exact hc
    simp only [constructCache, poolCapacities, hmap, List.sum_replicate,
      smul_eq_mul]
    exact Nat.div_add_mod config.cache_size_bytes config.num_shards

/-- C6: `get_all_items` infers the row element type from
`item_size_bytes / max_D_` via the fixed table 1 ↦ byte, 2 ↦ half,
4 ↦ float, 8 ↦ double; every other width raises the unsupported-dtype
error when `get_all_items` runs, while construction itself never inspects
the width and succeeds regardless. -/
theorem dtype_inference_table :
    (bytes_to_dtype 1 = .ok .kByte ∧ bytes_to_dtype 2 = .ok .kHalf ∧
      bytes_to_dtype 4 = .ok .kFloat ∧ bytes_to_dtype 8 = .ok .kDouble) ∧
    (∀ w : Nat, w ≠ 1 → w ≠ 2 → w ≠ 4 → w ≠ 8 →
      bytes_to_dtype w = .error "Unsupported dtype") ∧
    (∀ config : CacheConfig,
      (constructCache config).pools.length = config.num_shards) ∧
    (∀ (config : CacheConfig) (st : CacheState),
      bytes_to_dtype (config.item_size_bytes / config.max_D) =
        .error "Unsupported dtype" →
      get_all_items config st = .error "Unsupported dtype") := by
  refine ⟨⟨rfl, rfl, rfl, rfl⟩, ?_, ?_, ?_⟩
  · intro w h1 h2 h4 h8
    match w with
    | 0 => rfl
    | 1 => exact absurd rfl h1
    | 2 => exact absurd rfl h2
    | 3 => rfl
    | 4 => exact absurd rfl h4
    | 5 => rfl
    | 6 => rfl
    | 7 => rfl
    | 8 => exact absurd rfl h8
    | n + 9 => rfl
  · intro config
    simp [constructCache, poolCapacities]
  · intro config st herr
    simp only [get_all_items, herr]

/-- Witness for C6 at width 3: `bytes_to_dtype` rejects it,
construction of a cache with that width still succeeds (two pools), and
`get_all_items` is where the error surfaces. -/
theorem dtype_inference_table_witness :
    bytes_to_dtype 3 = .error "Unsupported dtype" ∧
    (constructCache ⟨2, 64, 1, 3⟩).pools.length = 2 ∧
    get_all_items ⟨2, 64, 1, 3⟩ emptyCache = .error "Unsupported dtype" :=
  ⟨dtype_inference_table.2.1 3 (by decide) (by decide) (by decide) (by decide),
    dtype_inference_table.2.2.1 ⟨2, 64, 1, 3⟩,
    dtype_inference_table.2.2.2 ⟨2, 64, 1, 3⟩ emptyCache (by rfl)⟩

/-- C3: a successful `put(key, data)` immediately followed by `get(key)`
returns a view whose bytes equal `data`, whatever eviction victims the
allocator chose while making room. -/
theorem put_get_round_trip (st : CacheState) (key : Int) (data : List Nat)
    (alloc : AllocOutcome) (h : (put st key data alloc).1 = true) :
    get (put st key data alloc).2 key = some data := by
  match alloc with
  | .fail victims => simp [put] at h
  | .ok victims => exact put_ok_get st key data victims

/-- Witness for C3: a concrete put of row bytes [3, 14] under key 1 into
the empty cache, read straight back. -/
theorem put_get_round_trip_witness :
    (put emptyCache 1 [3, 14] (.ok [])).1 = true ∧
    get (put emptyCache 1 [3, 14] (.ok [])).2 1 = some [3, 14] :=
  ⟨by decide, put_get_round_trip emptyCache 1 [3, 14] (.ok []) (by decide)⟩

/-- C7: when the allocator cannot satisfy the allocation for `put` even
after its own eviction attempts, `put` returns `false` and the entry for
that key is unchanged (the new row is simply not cached); per the spec the
allocator victimizes other items, so the key itself is not among the
victims of its own failed `put`. -/
theorem put_alloc_failure (st : CacheState) (key : Int) (data : List Nat)
    (victims : List Int) (hk : victims.contains key = false) :
    (put st key data (.fail victims)).1 = false ∧
    get (put st key data (.fail victims)).2 key = get st key := by
  refine ⟨rfl, ?_⟩
  rw [get_def, get_def]
  show ((removeKeys st.entries victims).find? (fun e => e.1 == key)).map
      (fun e => e.2) =
    (st.entries.find? (fun e => e.1 == key)).map (fun e => e.2)
  unfold removeKeys
  rw [find_filter_eq]
  intro e _ hq
  have hek : e.1 = key := by simpa using hq
  have hn : key ∉ victims := by simpa using hk
  simp [hek, hn]

/-- Witness for C7: a failed allocation for key 2 (the allocator evicted
key 9 in the failed attempt) leaves key 2 exactly as before. -/
theorem put_alloc_failure_witness :
    (put { entries := [(2, [5]), (9, [6])] } 2 [7, 7] (.fail [9])).1 = false ∧
    get (put { entries := [(2, [5]), (9, [6])] } 2 [7, 7] (.fail [9])).2 2 =
      get { entries := [(2, [5]), (9, [6])] } 2 :=
  put_alloc_failure { entries := [(2, [5]), (9, [6])] } 2 [7, 7] [9] (by decide)

/-- C2 (divergence witness): the removal callback evaluates
`evicted_weights_ptr_->scalar_type()` before it looks at the removal
context, so any firing while the engine is unarmed dereferences a null
pointer instead of silently dropping the event — for an eviction and for
a plain removal alike. -/
theorem unarmed_callback_crashes :
    eviction_cb unarmedState ⟨7, [1, 2, 3, 4], .kEviction⟩ =
      .error "null dereference of evicted_weights_ptr_" ∧
    eviction_cb unarmedState ⟨7, [1, 2, 3, 4], .kNormal⟩ =
      .error "null dereference of evicted_weights_ptr_" :=
  ⟨rfl, rfl⟩

/-- C9: the arming call pair of a cycle (`reset_eviction_states` at the
end of the previous cycle, then `init_tensor_for_l2_eviction`) leaves the
engine ARMED: both capture buffers attached, `evicted_keys` of leading
length `num_lookups` with the sentinel −1 in every slot, `evicted_rows`
of shape `[num_lookups, weight_dim]`, and the shared cursor at 0. -/
theorem arming_establishes_armed_state (st : EvictionState)
    (num_lookups weight_dim : Nat) (junk : Nat → Nat → Nat) :
    ∃ keys rows,
      (init_tensor_for_l2_eviction (reset_eviction_states st) num_lookups
          weight_dim junk).evicted_indices = some keys ∧
      (init_tensor_for_l2_eviction (reset_eviction_states st) num_lookups
          weight_dim junk).evicted_weights = some (rows, weight_dim) ∧
      keys.length = num_lookups ∧ (∀ k ∈ keys, k = -1) ∧
      rows.length = num_lookups ∧ (∀ r ∈ rows, r.length = weight_dim) ∧
      (init_tensor_for_l2_eviction (reset_eviction_states st) num_lookups
          weight_dim junk).eviction_row_id = 0 ∧
      get_evicted_indices_and_weights
          (init_tensor_for_l2_eviction (reset_eviction_states st) num_lookups
            weight_dim junk) = some (keys, rows) := by
  refine ⟨(List.replicate num_lookups (1 : Int)).map (fun x => x * (-1)),
    at_empty_2d num_lookups weight_dim junk, rfl, rfl, ?_, ?_, ?_, ?_, rfl, rfl⟩
  · simp
  · intro k hk
    simp only [List.mem_map] at hk
    obtain ⟨x, hx, hkv⟩ := hk
    have := List.eq_of_mem_replicate hx
    omega
  · simp [at_empty_2d]
  · intro r hr
    simp only [at_empty_2d, List.mem_map] at hr
    obtain ⟨i, _, hrv⟩ := hr
    simp [← hrv]

theorem foldl_add_map {α : Type} (f : α → Nat) (l : List α) :
    ∀ a : Nat, l.foldl (fun acc x => acc + f x) a = a + (l.map f).sum := by
  induction l with
  | nil => intro a; simp
  | cons x xs ih =>
      intro a
      simp only [List.foldl_cons, List.map_cons, List.sum_cons]
      rw [ih (a + f x)]
      omega

theorem sum_indicator_zero (e : Nat) :
    ∀ n : Nat, n ≤ e →
      ((List.range n).map (fun s => if e = s then 1 else 0)).sum = 0 := by
  intro n hn
  apply List.sum_eq_zero
  intro x hx
  simp only [List.mem_map, List.mem_range] at hx
  obtain ⟨s, hs, hxv⟩ := hx
  have : e ≠ s := by omega
  simp [← hxv, this]

theorem sum_indicator_one (e : Nat) :
    ∀ n : Nat, e < n →
      ((List.range n).map (fun s => if e = s then 1 else 0)).sum = 1 := by
  intro n
  induction n with
  | zero => intro h; omega
  | succ m ih =>
      intro h
      rw [List.range_succ, List.map_append, List.sum_append]
      by_cases he : e < m
      · have hne : e ≠ m := by omega
        simp [ih he, hne]
      · have hem : e = m := by omega
        rw [sum_indicator_zero e m (by omega)]
        simp [hem]

theorem sum_shard_counts (n : Nat) (hn : 0 < n) :
    ∀ l : List (Int × List Nat),
      ((List.range n).map
        (fun s => (l.filter (fun e => hash_shard e.1 n == s)).length)).sum =
        l.length := by
  intro l
  induction l with
  | nil => simp
  | cons x xs ih =>
      have hsplit : ∀ s : Nat,
          ((x :: xs).filter (fun e => hash_shard e.1 n == s)).length =
            (xs.filter (fun e => hash_shard e.1 n == s)).length +
              (if hash_shard x.1 n = s then 1 else 0) := by
        intro s
        rw [List.filter_cons]
        by_cases hx : hash_shard x.1 n = s
        · simp [hx]
        · simp [hx]
      have hmap : (List.range n).map
          (fun s => ((x :: xs).filter (fun e => hash_shard e.1 n == s)).length) =
          (List.range n).map
            (fun s => (xs.filter (fun e => hash_shard e.1 n == s)).length +
              (if hash_shard x.1 n = s then 1 else 0)) := by
        apply List.map_congr_left
        intro s _
        exact hsplit s
      rw [hmap, List.sum_map_add, ih,
        sum_indicator_one (hash_shard x.1 n) n (Nat.mod_lt _ hn)]
      simp [Nat.add_comm]

theorem totalNumItems_eq_length (config : CacheConfig) (st : CacheState)
    (hn : 0 < config.num_shards) :
    totalNumItems config st = st.entries.length := by
  unfold totalNumItems
  rw [foldl_add_map]
  simpa [poolNumItems, get_shard_id] using
    sum_shard_counts config.num_shards hn st.entries

theorem scanLoop_ok (count : Nat) :
    ∀ (entries : List (Int × List Nat)) (total idx : Nat),
      idx + entries.length ≤ total →
      (∀ e ∈ entries, count ≤ e.2.length) →
      scanLoop count total entries idx =
        .ok (entries.map Prod.fst, entries.map (fun e => e.2.take count)) := by
  intro entries
  induction entries with
  | nil => intro total idx _ _; rfl
  | cons e rest ih =>
      intro total idx hb hlen
      have hidx : ¬ total ≤ idx := by
        simp only [List.length_cons] at hb
        omega
      have hread : readRow e.2 count = .ok (e.2.take count) := by
        unfold readRow
        rw [if_pos (hlen e (List.mem_cons_self _ _))]
      have hrest := ih total (idx + 1)
        (by simp only [List.length_cons] at hb; omega)
        (fun x hx => hlen x (List.mem_cons_of_mem _ hx))
      unfold scanLoop
      rw [if_neg hidx, hread, hrest]
      rfl

theorem scanExport_of_scanLoop_ok (count total : Nat)
    (entries : List (Int × List Nat)) (ks : List Int)
    (rs : List (List Nat))
    (h : scanLoop count total entries 0 = .ok (ks, rs)) :
    scanExport count total entries =
      if total = entries.length then .ok (ks, rs, total)
      else .error "CHECK_EQ(total_num_items, item_idx) failed" := by
  unfold scanExport
  rw [h]

theorem scanExport_of_scanLoop_error (count total : Nat)
    (entries : List (Int × List Nat)) (msg : String)
    (h : scanLoop count total entries 0 = .error msg) :
    scanExport count total entries = .error msg := by
  unfold scanExport
  rw [h]

theorem get_all_items_of_dtype (config : CacheConfig) (st : CacheState)
    (dt : ScalarType)
    (h : bytes_to_dtype (config.item_size_bytes / config.max_D) = .ok dt) :
    get_all_items config st =
      scanExport (config.max_D * dtypeBytes dt) (totalNumItems config st)
        st.entries := by
  unfold get_all_items
  rw [h]

theorem scanLoop_ok_row_lengths (count : Nat) :
    ∀ (entries : List (Int × List Nat)) (total idx : Nat)
      (res : List Int × List (List Nat)),
      scanLoop count total entries idx = .ok res →
      ∀ e ∈ entries, count ≤ e.2.length := by
  intro entries
  induction entries with
  | nil => intro total idx res _ e he; cases he
  | cons x rest ih =>
      intro total idx res hok e he
      unfold scanLoop at hok
      by_cases hidx : total ≤ idx
      · rw [if_pos hidx] at hok; cases hok
      · rw [if_neg hidx] at hok
        rcases hread : readRow x.2 count with msg | row
        · rw [hread] at hok; cases hok
        · rw [hread] at hok
          have hxlen : count ≤ x.2.length := by
            unfold readRow at hread
            by_cases hc : count ≤ x.2.length
            · exact hc
            · rw [if_neg hc] at hread; cases hread
          rcases hrest : scanLoop count total rest (idx + 1) with msg | pair
          · rw [hrest] at hok; cases hok
          · rcases List.mem_cons.mp he with hex | hemem
            · rw [hex]; exact hxlen
            · exact ih total (idx + 1) pair hrest e hemem

/-- C8: the `CHECK_EQ` between the pre-computed total item count and the
number of items visited is a hard, fatal check — any mismatched total
makes `scanExport` fail rather than silently return; on an unmutated
cache the pre-computed total equals the number of live entries, so
`get_all_items` passes the check and returns exactly that count; on the
empty cache it returns zero-length arrays and count 0. -/
theorem scan_consistency_check (count total : Nat)
    (entries : List (Int × List Nat)) (config : CacheConfig)
    (st : CacheState) (dt : ScalarType)
    (hmismatch : total ≠ entries.length)
    (hshards : 0 < config.num_shards)
    (hdt : bytes_to_dtype (config.item_size_bytes / config.max_D) = .ok dt)
    (hrows : ∀ e ∈ st.entries,
      config.max_D * dtypeBytes dt ≤ e.2.length) :
    (∃ msg, scanExport count total entries = .error msg) ∧
    get_all_items config st =
      .ok (st.entries.map Prod.fst,
        st.entries.map (fun e => e.2.take (config.max_D * dtypeBytes dt)),
        st.entries.length) ∧
    get_all_items config emptyCache = .ok ([], [], 0) := by
  refine ⟨?_, ?_, ?_⟩
  · rcases hsl : scanLoop count total entries 0 with msg | pair
    · exact ⟨msg, scanExport_of_scanLoop_error count total entries msg hsl⟩
    · obtain ⟨ks, rs⟩ := pair
      refine ⟨"CHECK_EQ(total_num_items, item_idx) failed", ?_⟩
      rw [scanExport_of_scanLoop_ok count total entries ks rs hsl,
        if_neg hmismatch]
  · have htot := totalNumItems_eq_length config st hshards
    rw [get_all_items_of_dtype config st dt hdt,
      scanExport_of_scanLoop_ok _ _ _ _ _
        (scanLoop_ok (config.max_D * dtypeBytes dt) st.entries
          (totalNumItems config st) 0 (by omega) hrows),
      if_pos htot, htot]
  · have htot := totalNumItems_eq_length config emptyCache hshards
    rw [get_all_items_of_dtype config emptyCache dt hdt,
      scanExport_of_scanLoop_ok _ _ _ _ _
        (scanLoop_ok (config.max_D * dtypeBytes dt) emptyCache.entries
          (totalNumItems config emptyCache) 0 (by omega)
          (by intro e he; cases he)),
      if_pos htot]
    simp only [emptyCache, List.map_nil]
    rw [show totalNumItems config { entries := [] } = 0 from htot]

/-- Witness for C8: a stale total of 1 against an empty item list is
fatal; on a one-item cache (1 shard, 2 floats per row, 8 bytes per item)
the check passes and the count is 1; the empty cache exports count 0. -/
theorem scan_consistency_check_witness :
    (∃ msg, scanExport 8 1 [] = .error msg) ∧
    get_all_items ⟨1, 100, 2, 8⟩
        { entries := [(5, [1, 2, 3, 4, 5, 6, 7, 8])] } =
      .ok ([5], [[1, 2, 3, 4, 5, 6, 7, 8]], 1) ∧
    get_all_items ⟨1, 100, 2, 8⟩ emptyCache = .ok ([], [], 0) :=
  scan_consistency_check 8 1 [] ⟨1, 100, 2, 8⟩
    { entries := [(5, [1, 2, 3, 4, 5, 6, 7, 8])] } .kFloat
    (by decide) (by decide) (by rfl) (by decide)

theorem setSlot_length {α : Type} :
    ∀ (l : List α) (n : Nat) (v : α), (setSlot l n v).length = l.length := by
  intro l
  induction l with
  | nil => intro n v; rfl
  | cons x xs ih =>
      intro n v
      match n with
      | 0 => rfl
      | m + 1 => simp [setSlot, ih]

theorem setSlot_get_eq {α : Type} :
    ∀ (l : List α) (n : Nat) (v : α), n < l.length →
      (setSlot l n v)[n]? = some v := by
  intro l
  induction l with
  | nil => intro n v h; simp at h
  | cons x xs ih =>
      intro n v h
      match n with
      | 0 =>
          show (v :: xs)[0]? = some v
          exact List.getElem?_cons_zero
      | m + 1 =>
          show (x :: setSlot xs m v)[m + 1]? = some v
          rw [List.getElem?_cons_succ]
          exact ih m v (by simp at h; omega)

theorem setSlot_get_ne {α : Type} :
    ∀ (l : List α) (n i : Nat) (v : α), i ≠ n →
      (setSlot l n v)[i]? = l[i]? := by
  intro l
  induction l with
  | nil => intro n i v _; rfl
  | cons x xs ih =>
      intro n i v hne
      match n with
      | 0 =>
          match i with
          | 0 => exact absurd rfl hne
          | j + 1 => simp [setSlot]
      | m + 1 =>
          match i with
          | 0 =>
              show (x :: setSlot xs m v)[0]? = (x :: xs)[0]?
              rw [List.getElem?_cons_zero, List.getElem?_cons_zero]
          | j + 1 =>
              show (x :: setSlot xs m v)[j + 1]? = (x :: xs)[j + 1]?
              rw [List.getElem?_cons_succ, List.getElem?_cons_succ]
              exact ih m j v (by omega)

theorem eviction_cb_records (keys : List Int) (rows : List (List Nat))
    (dim c : Nat) (ev : RemoveEvent)
    (hctx : ev.context = RemoveContext.kEviction)
    (hlt : c < keys.length) (hlt2 : c < rows.length)
    (hrow : dim ≤ ev.row.length) :
    eviction_cb ⟨some keys, some (rows, dim), c⟩ ev =
      .ok ⟨some (setSlot keys c ev.key),
        some (setSlot rows c (ev.row.take dim), dim), c + 1⟩ := by
  simp only [eviction_cb]
  rw [if_pos hctx, if_pos ⟨hlt, hlt2⟩, if_pos hrow]

theorem eviction_cb_skips (keys : List Int) (rows : List (List Nat))
    (dim c : Nat) (ev : RemoveEvent)
    (hctx : ev.context ≠ RemoveContext.kEviction) :
    eviction_cb ⟨some keys, some (rows, dim), c⟩ ev =
      .ok ⟨some keys, some (rows, dim), c⟩ := by
  simp only [eviction_cb]
  rw [if_neg hctx]

theorem evictionsOf_cons_pos (ev : RemoveEvent) (rest : List RemoveEvent)
    (h : ev.context = RemoveContext.kEviction) :
    evictionsOf (ev :: rest) = ev :: evictionsOf rest := by
  unfold evictionsOf
  rw [List.filter_cons, if_pos (by simp [h])]

theorem evictionsOf_cons_neg (ev : RemoveEvent) (rest : List RemoveEvent)
    (h : ev.context ≠ RemoveContext.kEviction) :
    evictionsOf (ev :: rest) = evictionsOf rest := by
  unfold evictionsOf
  rw [List.filter_cons, if_neg (by simp [h])]

theorem runCallbacks_cons_ok (st st1 : EvictionState) (ev : RemoveEvent)
    (rest : List RemoveEvent) (h : eviction_cb st ev = .ok st1) :
    runCallbacks st (ev :: rest) = runCallbacks st1 rest := by
  show (match eviction_cb st ev with
    | Except.error msg => Except.error msg
    | Except.ok st2 => runCallbacks st2 rest) = runCallbacks st1 rest
  rw [h]

theorem runCallbacks_armed :
    ∀ (evs : List RemoveEvent) (keys : List Int) (rows : List (List Nat))
      (dim c : Nat),
      keys.length = rows.length →
      c + (evictionsOf evs).length ≤ keys.length →
      (∀ ev ∈ evs, ev.context = RemoveContext.kEviction →
        dim ≤ ev.row.length) →
      ∃ keys2 rows2,
        runCallbacks ⟨some keys, some (rows, dim), c⟩ evs =
          .ok ⟨some keys2, some (rows2, dim),
            c + (evictionsOf evs).length⟩ ∧
        keys2.length = keys.length ∧ rows2.length = rows.length ∧
        (∀ i : Nat, i < c ∨ c + (evictionsOf evs).length ≤ i →
          keys2[i]? = keys[i]? ∧ rows2[i]? = rows[i]?) ∧
        (∀ (j : Nat) (ev0 : RemoveEvent), (evictionsOf evs)[j]? = some ev0 →
          keys2[c + j]? = some ev0.key ∧
          rows2[c + j]? = some (ev0.row.take dim)) := by
  intro evs
  induction evs with
  | nil =>
      intro keys rows dim c _ _ _
      refine ⟨keys, rows, ?_, rfl, rfl, ?_, ?_⟩
      · show (Except.ok ⟨some keys, some (rows, dim), c⟩ :
            Except String EvictionState) =
          Except.ok ⟨some keys, some (rows, dim),
            c + (evictionsOf []).length⟩
        rw [show (evictionsOf []).length = 0 from rfl, Nat.add_zero]
      · intro i _; exact ⟨rfl, rfl⟩
      · intro j ev0 hj
        rw [show evictionsOf [] = [] from rfl] at hj
        simp at hj
  | cons ev rest ih =>
      intro keys rows dim c hlen hbound hrows
      by_cases hctx : ev.context = RemoveContext.kEviction
      · rw [evictionsOf_cons_pos ev rest hctx] at hbound ⊢
        simp only [List.length_cons] at hbound
        have hc : c < keys.length := by omega
        have hc2 : c < rows.length := by omega
        have hrow : dim ≤ ev.row.length :=
          hrows ev (List.mem_cons_self _ _) hctx
        have hstep := eviction_cb_records keys rows dim c ev hctx hc hc2 hrow
        have hre := ih (setSlot keys c ev.key)
          (setSlot rows c (ev.row.take dim)) dim (c + 1)
          (by rw [setSlot_length, setSlot_length]; exact hlen)
          (by rw [setSlot_length]; omega)
          (fun x hx hcx => hrows x (List.mem_cons_of_mem _ hx) hcx)
        obtain ⟨keys2, rows2, hrun, hk2, hr2, hout, hslots⟩ := hre
        refine ⟨keys2, rows2, ?_, ?_, ?_, ?_, ?_⟩
        · rw [runCallbacks_cons_ok _ _ ev rest hstep, hrun]
          have harith : c + 1 + (evictionsOf rest).length =
              c + (ev :: evictionsOf rest).length := by
            simp only [List.length_cons]
            omega
          rw [harith]
        · rw [hk2, setSlot_length]
        · rw [hr2, setSlot_length]
        · intro i hi
          simp only [List.length_cons] at hi
          have hi2 : i < c + 1 ∨ c + 1 + (evictionsOf rest).length ≤ i := by
            omega
          have hne : i ≠ c := by omega
          obtain ⟨h1, h2⟩ := hout i hi2
          rw [h1, h2, setSlot_get_ne keys c i ev.key hne,
            setSlot_get_ne rows c i (ev.row.take dim) hne]
          exact ⟨rfl, rfl⟩
        · intro j ev0 hj
          match j with
          | 0 =>
              rw [List.getElem?_cons_zero] at hj
              cases hj
              have hu := hout c (Or.inl (by omega))
              obtain ⟨h1, h2⟩ := hu
              rw [Nat.add_zero, h1, h2,
                setSlot_get_eq keys c ev.key hc,
                setSlot_get_eq rows c (ev.row.take dim) hc2]
              exact ⟨rfl, rfl⟩
          | m + 1 =>
              rw [List.getElem?_cons_succ] at hj
              have hs := hslots m ev0 hj
              have harith : c + (m + 1) = c + 1 + m := by omega
              rw [harith]
              exact hs
      · rw [evictionsOf_cons_neg ev rest hctx] at hbound ⊢
        have hstep := eviction_cb_skips keys rows dim c ev hctx
        have hre := ih keys rows dim c hlen hbound
          (fun x hx hcx => hrows x (List.mem_cons_of_mem _ hx) hcx)
        obtain ⟨keys2, rows2, hrun, hk2, hr2, hout, hslots⟩ := hre
        refine ⟨keys2, rows2, ?_, hk2, hr2, hout, hslots⟩
        rw [runCallbacks_cons_ok _ _ ev rest hstep, hrun]

theorem armed_keys_sentinel (B i : Nat) (h : i < B) :
    ((List.replicate B (1 : Int)).map (fun x => x * (-1)))[i]? =
      some (-1) := by
  rw [List.getElem?_map, List.getElem?_replicate, if_pos h]
  simp

/-- C1: in a cycle armed with a buffer of size `B`, a batch whose removal
callbacks contain exactly `E ≤ B` true capacity evictions (keys never the
sentinel, rows of the buffer's row dimension) ends with the callback chain
succeeding, the cursor at `E`, exactly the first `E` slots of
`evicted_keys` non-sentinel, slot `j` holding the key and the full row
bytes of the `j`-th eviction, and every recorded slot originating from a
true eviction — a key removed by replace-on-insert (context ≠ eviction)
is never recorded. -/
theorem eviction_capture_complete (st0 : EvictionState) (B dim : Nat)
    (junk : Nat → Nat → Nat) (evs : List RemoveEvent)
    (hE : (evictionsOf evs).length ≤ B)
    (hrows : ∀ ev ∈ evs, ev.context = RemoveContext.kEviction →
      ev.row.length = dim)
    (hkeys : ∀ ev ∈ evs, ev.context = RemoveContext.kEviction →
      ev.key ≠ -1) :
    ∃ (keys2 : List Int) (rows2 : List (List Nat)),
      runCallbacks
        (init_tensor_for_l2_eviction (reset_eviction_states st0) B dim junk)
        evs =
        .ok ⟨some keys2, some (rows2, dim), (evictionsOf evs).length⟩ ∧
      keys2.length = B ∧ rows2.length = B ∧
      (∀ i : Nat, i < B →
        (keys2[i]? ≠ some (-1) ↔ i < (evictionsOf evs).length)) ∧
      (∀ (j : Nat) (ev0 : RemoveEvent), (evictionsOf evs)[j]? = some ev0 →
        keys2[j]? = some ev0.key ∧ rows2[j]? = some ev0.row) ∧
      (∀ (j : Nat) (k : Int), j < (evictionsOf evs).length →
        keys2[j]? = some k →
        ∃ ev0 ∈ evs, ev0.context = RemoveContext.kEviction ∧
          ev0.key = k) := by
  have hklen : ((List.replicate B (1 : Int)).map (fun x => x * (-1))).length
      = B := by simp
  have hrlen : (at_empty_2d B dim junk).length = B := by simp [at_empty_2d]
  have harmed : init_tensor_for_l2_eviction (reset_eviction_states st0) B dim
      junk =
      (⟨some ((List.replicate B (1 : Int)).map (fun x => x * (-1))),
        some (at_empty_2d B dim junk, dim), 0⟩ : EvictionState) := rfl
  have hinv := runCallbacks_armed evs
    ((List.replicate B (1 : Int)).map (fun x => x * (-1)))
    (at_empty_2d B dim junk) dim 0
    (by rw [hklen, hrlen]) (by rw [hklen]; omega)
    (fun ev hev hc => le_of_eq (hrows ev hev hc).symm)
  obtain ⟨keys2, rows2, hrun, hk2, hr2, hout, hslots⟩ := hinv
  have hmemfacts : ∀ (j : Nat) (ev0 : RemoveEvent),
      (evictionsOf evs)[j]? = some ev0 →
      ev0 ∈ evs ∧ ev0.context = RemoveContext.kEviction := by
    intro j ev0 hj
    have hmem := List.getElem?_mem hj
    have hmem2 := List.mem_filter.mp hmem
    exact ⟨hmem2.1, by simpa using hmem2.2⟩
  refine ⟨keys2, rows2, ?_, by rw [hk2, hklen], by rw [hr2, hrlen],
    ?_, ?_, ?_⟩
  · rw [harmed, hrun, Nat.zero_add]
  · intro i hiB
    constructor
    · intro hne
      by_contra hiE
      push_neg at hiE
      have hu := (hout i (Or.inr (by omega))).1
      rw [hu, armed_keys_sentinel B i hiB] at hne
      exact hne rfl
    · intro hiE
      have hj : (evictionsOf evs)[i]? =
          some ((evictionsOf evs).get ⟨i, hiE⟩) :=
        List.getElem?_eq_getElem hiE
      have hsl := (hslots i _ hj).1
      rw [Nat.zero_add] at hsl
      have hmf := hmemfacts i _ hj
      have hkne := hkeys _ hmf.1 hmf.2
      rw [hsl]
      intro heq
      exact hkne (by injection heq)
  · intro j ev0 hj
    have hsl := hslots j ev0 hj
    obtain ⟨hslk, hslr⟩ := hsl
    rw [Nat.zero_add] at hslk hslr
    have hmf := hmemfacts j ev0 hj
    have hlen := hrows ev0 hmf.1 hmf.2
    have htake : ev0.row.take dim = ev0.row := by
      rw [← hlen]
      exact List.take_length _
    rw [htake] at hslr
    exact ⟨hslk, hslr⟩
  · intro j k hjE hk
    have hj : (evictionsOf evs)[j]? =
        some ((evictionsOf evs).get ⟨j, hjE⟩) :=
      List.getElem?_eq_getElem hjE
    have hsl := (hslots j _ hj).1
    rw [Nat.zero_add] at hsl
    have hmf := hmemfacts j _ hj
    refine ⟨(evictionsOf evs).get ⟨j, hjE⟩, hmf.1, hmf.2, ?_⟩
    rw [hsl] at hk
    exact Option.some_inj.mp hk

/-- Witness for C1: a concrete armed cycle with buffer size 2 and a batch
of one true eviction (key 7, row [3]) followed by one replace-on-insert
removal (key 9) — exactly one slot is recorded. -/
theorem eviction_capture_complete_witness :
    (evictionsOf [⟨7, [3], RemoveContext.kEviction⟩,
      ⟨9, [4], RemoveContext.kNormal⟩]).length ≤ 2 ∧
    (∃ (keys2 : List Int) (rows2 : List (List Nat)),
      runCallbacks
        (init_tensor_for_l2_eviction (reset_eviction_states unarmedState) 2 1
          (fun _ _ => 0))
        [⟨7, [3], RemoveContext.kEviction⟩,
          ⟨9, [4], RemoveContext.kNormal⟩] =
        .ok ⟨some keys2, some (rows2, 1),
          (evictionsOf [⟨7, [3], RemoveContext.kEviction⟩,
            ⟨9, [4], RemoveContext.kNormal⟩]).length⟩ ∧
      keys2.length = 2 ∧ rows2.length = 2 ∧
      (∀ i : Nat, i < 2 →
        (keys2[i]? ≠ some (-1) ↔
          i < (evictionsOf [⟨7, [3], RemoveContext.kEviction⟩,
            ⟨9, [4], RemoveContext.kNormal⟩]).length)) ∧
      (∀ (j : Nat) (ev0 : RemoveEvent),
        (evictionsOf [⟨7, [3], RemoveContext.kEviction⟩,
          ⟨9, [4], RemoveContext.kNormal⟩])[j]? = some ev0 →
        keys2[j]? = some ev0.key ∧ rows2[j]? = some ev0.row) ∧
      (∀ (j : Nat) (k : Int),
        j < (evictionsOf [⟨7, [3], RemoveContext.kEviction⟩,
          ⟨9, [4], RemoveContext.kNormal⟩]).length →
        keys2[j]? = some k →
        ∃ ev0 ∈ ([⟨7, [3], RemoveContext.kEviction⟩,
          ⟨9, [4], RemoveContext.kNormal⟩] : List RemoveEvent),
          ev0.context = RemoveContext.kEviction ∧ ev0.key = k)) :=
  ⟨by decide,
    eviction_capture_complete unarmedState 2 1 (fun _ _ => 0)
      [⟨7, [3], RemoveContext.kEviction⟩, ⟨9, [4], RemoveContext.kNormal⟩]
      (by decide) (by decide) (by decide)⟩

/-- C5 counterexample: the claim that the cursor increment is atomic so
two concurrent evictions never claim the same slot fails on the source
increment: modelling the plain `eviction_row_id++` as a separate load and
store, the schedule read₁ read₂ write₁ write₂ makes both eviction threads
claim slot 0, with the final cursor at 1. -/
theorem plain_increment_slot_collision :
    (runPlain [.read1, .read2, .write1, .write2]).slot1 = some 0 ∧
    (runPlain [.read1, .read2, .write1, .write2]).slot2 = some 0 ∧
    (runPlain [.read1, .read2, .write1, .write2]).cursor = 1 := by
  decide


theorem atomicStep_inv (s : RaceState) (step : AtomicStep)
    (h1 : ∀ v, s.slot1 = some v → v < s.cursor)
    (h2 : ∀ v, s.slot2 = some v → v < s.cursor)
    (h12 : ∀ a b, s.slot1 = some a → s.slot2 = some b → a ≠ b) :
    (∀ v, (atomicStep s step).slot1 = some v →
      v < (atomicStep s step).cursor) ∧
    (∀ v, (atomicStep s step).slot2 = some v →
      v < (atomicStep s step).cursor) ∧
    (∀ a b, (atomicStep s step).slot1 = some a →
      (atomicStep s step).slot2 = some b → a ≠ b) := by
  match step with
  | .fad1 =>
      rcases hs1 : s.slot1 with _ | v1
      · have he : atomicStep s .fad1 =
            { s with slot1 := some s.cursor, cursor := s.cursor + 1 } := by
          simp [atomicStep, hs1]
        rw [he]
        refine ⟨?_, ?_, ?_⟩
        · intro v hv
          simp only at hv
          have hvc : v = s.cursor := (Option.some_inj.mp hv).symm
          simp only
          omega
        · intro v hv
          simp only at hv
          have := h2 v hv
          simp only
          omega
        · intro a b ha hb
          simp only at ha hb
          have hac : a = s.cursor := (Option.some_inj.mp ha).symm
          have := h2 b hb
          omega
      · have he : atomicStep s .fad1 = s := by simp [atomicStep, hs1]
        rw [he]
        exact ⟨h1, h2, h12⟩
  | .fad2 =>
      rcases hs2 : s.slot2 with _ | v2
      · have he : atomicStep s .fad2 =
            { s with slot2 := some s.cursor, cursor := s.cursor + 1 } := by
          simp [atomicStep, hs2]
        rw [he]
        refine ⟨?_, ?_, ?_⟩
        · intro v hv
          simp only at hv
          have := h1 v hv
          simp only
          omega
        · intro v hv
          simp only at hv
          have hvc : v = s.cursor := (Option.some_inj.mp hv).symm
          simp only
          omega
        · intro a b ha hb
          simp only at ha hb
          have hbc : b = s.cursor := (Option.some_inj.mp hb).symm
          have := h1 a ha
          omega
      · have he : atomicStep s .fad2 = s := by simp [atomicStep, hs2]
        rw [he]
        exact ⟨h1, h2, h12⟩

theorem atomic_run_inv (steps : List AtomicStep) :
    ∀ s : RaceState,
      (∀ v, s.slot1 = some v → v < s.cursor) →
      (∀ v, s.slot2 = some v → v < s.cursor) →
      (∀ a b, s.slot1 = some a → s.slot2 = some b → a ≠ b) →
      ∀ a b, (steps.foldl atomicStep s).slot1 = some a →
        (steps.foldl atomicStep s).slot2 = some b → a ≠ b := by
  induction steps with
  | nil => intro s _ _ h12; exact h12
  | cons step rest ih =>
      intro s h1 h2 h12
      obtain ⟨g1, g2, g12⟩ := atomicStep_inv s step h1 h2 h12
      exact ih (atomicStep s step) g1 g2 g12

/-- C5 (amended): modelling the callback's plain `eviction_row_id++` as a
separate load and store, there is an interleaving of two concurrently
evicting threads in which both claim capture slot 0 — the buffer-slot
collision the spec warns about; had the increment been an atomic
fetch-and-add (one indivisible claim-and-bump step), any interleaving
would give the two threads distinct slots. -/
theorem cursor_increment_race (steps : List AtomicStep) (a b : Nat)
    (h1 : (runAtomic steps).slot1 = some a)
    (h2 : (runAtomic steps).slot2 = some b) :
    ((runPlain [.read1, .read2, .write1, .write2]).slot1 = some 0 ∧
      (runPlain [.read1, .read2, .write1, .write2]).slot2 = some 0) ∧
    a ≠ b := by
  constructor
  · exact ⟨by decide, by decide⟩
  · exact atomic_run_inv steps raceInit
      (by intro v hv; cases hv) (by intro v hv; cases hv)
      (by intro x y hx _; cases hx) a b h1 h2

/-- Witness for C5 (amended): the schedule fetch-add₁ then fetch-add₂
gives the two threads slots 0 and 1, which are distinct — while the plain
increment collides on the interleaving named in the statement. -/
theorem cursor_increment_race_witness :
    (runAtomic [.fad1, .fad2]).slot1 = some 0 ∧
    (runAtomic [.fad1, .fad2]).slot2 = some 1 ∧
    (((runPlain [.read1, .read2, .write1, .write2]).slot1 = some 0 ∧
      (runPlain [.read1, .read2, .write1, .write2]).slot2 = some 0) ∧
      (0 : Nat) ≠ 1) :=
  ⟨by decide, by decide,
    cursor_increment_race [.fad1, .fad2] 0 1 (by decide) (by decide)⟩

/-- C10 (implicit): `put` never validates the caller's byte length — it
allocates exactly the supplied tensor's bytes and a `put` of any length
succeeds and stores the full row whenever the allocator grants the
allocation; consequently the fixed-width copies are only well defined for
rows of the configured size: `get_all_items` (which copies exactly
`max_D_` elements per item) hits an out-of-bounds read as soon as some
stored row is shorter, and the eviction callback (which copies
`weight_dim` elements) does the same on a short evicted row. -/
theorem put_no_size_validation :
    (∀ (st : CacheState) (key : Int) (data : List Nat) (victims : List Int),
      (put st key data (.ok victims)).1 = true ∧
      get (put st key data (.ok victims)).2 key = some data) ∧
    (∀ (config : CacheConfig) (st : CacheState) (dt : ScalarType)
      (e : Int × List Nat),
      bytes_to_dtype (config.item_size_bytes / config.max_D) = .ok dt →
      e ∈ st.entries → e.2.length < config.max_D * dtypeBytes dt →
      ∃ msg, get_all_items config st = .error msg) ∧
    (∀ (keys : List Int) (rows : List (List Nat)) (dim c : Nat)
      (ev : RemoveEvent),
      ev.context = RemoveContext.kEviction →
      ev.row.length < dim →
      ∃ msg, eviction_cb ⟨some keys, some (rows, dim), c⟩ ev =
        .error msg) := by
  refine ⟨?_, ?_, ?_⟩
  · intro st key data victims
    exact ⟨rfl, put_ok_get st key data victims⟩
  · intro config st dt e hdt he hshort
    rw [get_all_items_of_dtype config st dt hdt]
    rcases hsl : scanLoop (config.max_D * dtypeBytes dt)
        (totalNumItems config st) st.entries 0 with msg | pair
    · exact ⟨msg, scanExport_of_scanLoop_error _ _ _ msg hsl⟩
    · exfalso
      have := scanLoop_ok_row_lengths (config.max_D * dtypeBytes dt)
        st.entries (totalNumItems config st) 0 pair hsl e he
      omega
  · intro keys rows dim c ev hctx hshort
    simp only [eviction_cb]
    rw [if_pos hctx]
    by_cases hb : c < keys.length ∧ c < rows.length
    · rw [if_pos hb, if_neg (by omega)]
      exact ⟨"out of bounds read past item memory", rfl⟩
    · rw [if_neg hb]
      exact ⟨"out of bounds write past capture buffers", rfl⟩

/-- Witness for C10: a one-byte row is accepted by `put` and read back
whole even though the configuration expects 8-byte items; a cache holding
a 2-byte row under a 2-float (8-byte) configuration makes
`get_all_items` fail with an out-of-bounds read; an armed callback of
row dimension 1 fails on an evicted item with an empty row. -/
theorem put_no_size_validation_witness :
    ((put emptyCache 3 [9] (.ok [])).1 = true ∧
      get (put emptyCache 3 [9] (.ok [])).2 3 = some [9]) ∧
    (∃ msg, get_all_items ⟨1, 10, 2, 8⟩ { entries := [(4, [1, 2])] } =
      .error msg) ∧
    (∃ msg, eviction_cb ⟨some [-1], some ([[0]], 1), 0⟩
      ⟨5, [], RemoveContext.kEviction⟩ = .error msg) :=
  ⟨put_no_size_validation.1 emptyCache 3 [9] [],
    put_no_size_validation.2.1 ⟨1, 10, 2, 8⟩ { entries := [(4, [1, 2])] }
      .kFloat (4, [1, 2]) (by rfl) (by decide) (by decide),
    put_no_size_validation.2.2 [-1] [[0]] 1 0
      ⟨5, [], RemoveContext.kEviction⟩ (by decide) (by decide)⟩
